import Mathlib

/-!
Verification of the paperFinder retrieval-aggregation-ranking pipeline.

The Python sources (`paper_sources.py`, `ai_search.py`, `paper_finder.py`)
are shallowly embedded below.  Strings are manipulated through `List Char`
with structurally recursive helpers mirroring the Python `str` methods that
the code uses (`lower`, `strip`, `split`, substring containment via `in`,
`int(...)` parsing); only the ASCII fragment of those methods is modelled,
which covers every string the claims speak about.  Python `float` scores are
modelled as `ℚ`; the external embedding service and the floating-point
cosine similarity are uninterpreted parameters (`emb`, `cos`).  Python's
stable `list.sort` is modelled by `List.insertionSort` with the reflexive
descending comparison used by the source: a stable sort's output is uniquely
determined by the comparison, so any stable sort is a faithful model.
-/

/-- ASCII whitespace recognised by Python's `str.strip()` / `str.split()`. -/
def pyIsSpace (c : Char) : Bool :=
  c = ' ' || c = '\t' || c = '\n' || c = '\x0d' || c = '\x0b' || c = '\x0c'

/-- Python `str.lower()` (ASCII fragment), on the character list. -/
def pyLower (cs : List Char) : List Char :=
  cs.map Char.toLower

/-- Python `str.strip()` with no argument: drop whitespace at both ends. -/
def pyStrip (cs : List Char) : List Char :=
  ((cs.dropWhile pyIsSpace).reverse.dropWhile pyIsSpace).reverse

/-- Inner loop of `pySplitWS`: `acc` holds the current word, reversed. -/
def pySplitWSAux : List Char → List Char → List (List Char)
  | [], acc => if acc.isEmpty then [] else [acc.reverse]
  | c :: rest, acc =>
    if pyIsSpace c then
      if acc.isEmpty then pySplitWSAux rest [] else acc.reverse :: pySplitWSAux rest []
    else pySplitWSAux rest (c :: acc)

/-- Python `str.split()` with no argument: split on whitespace runs, no empties. -/
def pySplitWS (cs : List Char) : List (List Char) :=
  pySplitWSAux cs []

/-- Inner loop of `splitOnChar`: `acc` holds the current piece, reversed. -/
def splitOnCharAux (sep : Char) : List Char → List Char → List (List Char)
  | [], acc => [acc.reverse]
  | c :: rest, acc =>
    if c = sep then acc.reverse :: splitOnCharAux sep rest []
    else splitOnCharAux sep rest (c :: acc)

/-- Python `str.split(sep)` for a one-character separator: keeps empty pieces,
and yields `[""]` on the empty string. -/
def splitOnChar (sep : Char) (cs : List Char) : List (List Char) :=
  splitOnCharAux sep cs []

/-- Does `pat` occur at the very start of `text`? -/
def hasPre : List Char → List Char → Bool
  | [], _ => true
  | _ :: _, [] => false
  | p :: ps, t :: ts => p == t && hasPre ps ts

/-- Python `pat in text` substring containment. -/
def hasSubstr (pat : List Char) : List Char → Bool
  | [] => pat.isEmpty
  | c :: rest => hasPre pat (c :: rest) || hasSubstr pat rest

/-- Numeric value of an ASCII digit string. -/
def digitsVal (cs : List Char) : ℕ :=
  cs.foldl (fun n c => 10 * n + (c.toNat - 48)) 0

/-- Python `int(s)`: strip whitespace, optional sign, then ASCII digits;
`none` models the `ValueError` raised on anything else. -/
def pyInt (cs : List Char) : Option ℤ :=
  match pyStrip cs with
  | [] => none
  | c :: rest =>
    if c = '-' then
      if !rest.isEmpty && rest.all Char.isDigit then some (-(digitsVal rest : ℤ)) else none
    else if c = '+' then
      if !rest.isEmpty && rest.all Char.isDigit then some ((digitsVal rest : ℤ)) else none
    else
      if (c :: rest).all Char.isDigit then some ((digitsVal (c :: rest) : ℤ)) else none

/-- Unified paper record from `paper_sources.Paper`, with the dataclass
defaults.  `relevance_score` (a Python float) is modelled as `ℚ`. -/
structure Paper where
  title : String
  authors : List String
  abstract : String
  year : Option Int := none
  doi : Option String := none
  url : Option String := none
  pdf_url : Option String := none
  source : String := ""
  citations : Int := 0
  venue : Option String := none
  arxiv_id : Option String := none
  fields : List String := []
  keywords : List String := []
  relevance_score : ℚ := 0
  embedding : Option (List ℚ) := none
deriving DecidableEq

instance : Inhabited Paper := ⟨{ title := "", authors := [], abstract := "" }⟩

/-- Python truthiness of an optional string: `None` and `""` are falsy.
Yields the string exactly when `if s:` succeeds in the source. -/
def truthyS : Option String → Option String
  | none => none
  | some s => if s = "" then none else some s

/-- The deduplicator's `paper.title.lower().strip()` normalisation. -/
def normTitle (t : String) : List Char :=
  pyStrip (pyLower t.data)

/-- State of `PaperAggregator._deduplicate`: the `seen_ids` and
`seen_titles` sets (modelled as lists queried by membership). -/
structure DState where
  ids : List String
  titles : List (List Char)
deriving DecidableEq

/-- Final phase of one `_deduplicate` loop iteration: the normalized-title
check; on success the title is recorded and the paper kept. -/
def dstepT (st : DState) (p : Paper) : DState × Bool :=
  let t := normTitle p.title
  if t ∈ st.titles then (st, false) else (⟨st.ids, t :: st.titles⟩, true)

/-- Middle phase: the arXiv-id check (`if paper.arxiv_id:` then membership in
`seen_ids`, recording it when fresh). -/
def dstepA (st : DState) (p : Paper) : DState × Bool :=
  match truthyS p.arxiv_id with
  | some a => if a ∈ st.ids then (st, false) else dstepT ⟨a :: st.ids, st.titles⟩ p
  | none => dstepT st p

/-- One full iteration of the `_deduplicate` loop on one paper: DOI check,
then arXiv-id check, then title check.  Returns the updated seen-sets and
whether the paper is kept.  Note that a paper dropped at an early check has
already recorded the identifiers of the checks it passed. -/
def dstep (st : DState) (p : Paper) : DState × Bool :=
  match truthyS p.doi with
  | some d => if d ∈ st.ids then (st, false) else dstepA ⟨d :: st.ids, st.titles⟩ p
  | none => dstepA st p

/-- The `_deduplicate` loop: keep the papers whose `dstep` succeeds,
threading the seen-sets. -/
def dedupGo (st : DState) : List Paper → List Paper
  | [] => []
  | p :: rest =>
    match dstep st p with
    | (st2, true) => p :: dedupGo st2 rest
    | (st2, false) => dedupGo st2 rest

/-- Initial deduplication state: empty `seen_ids` and `seen_titles`. -/
def dInit : DState := ⟨[], []⟩

/-- `PaperAggregator._deduplicate`. -/
def _deduplicate (papers : List Paper) : List Paper :=
  dedupGo dInit papers

/-- Keep/drop decision of `_deduplicate` for each input position, in arrival
order (instrumentation of the same loop). -/
def dedupFlags (st : DState) : List Paper → List Bool
  | [] => []
  | p :: rest => (dstep st p).2 :: dedupFlags (dstep st p).1 rest

/-- Three-tier identity rule of the specification: same non-empty DOI, or
same non-empty archive id, or equal normalized titles. -/
def dupRel (p q : Paper) : Prop :=
  (truthyS p.doi ≠ none ∧ truthyS p.doi = truthyS q.doi) ∨
  (truthyS p.arxiv_id ≠ none ∧ truthyS p.arxiv_id = truthyS q.arxiv_id) ∨
  normTitle p.title = normTitle q.title

instance (p q : Paper) : Decidable (dupRel p q) := by
  unfold dupRel; infer_instance

/-- Descending sort order used by `_rank_by_keywords`:
`papers.sort(key=lambda p: (p.relevance_score, p.citations), reverse=True)`.
`sortRel2 p q` holds when `p` may come before `q`. -/
def sortRel2 (p q : Paper) : Prop :=
  q.relevance_score < p.relevance_score ∨
    (q.relevance_score = p.relevance_score ∧ q.citations ≤ p.citations)

instance (p q : Paper) : Decidable (sortRel2 p q) := by
  unfold sortRel2; infer_instance

/-- Descending sort order used by the semantic tier:
`ranked_papers.sort(key=lambda p: p.relevance_score, reverse=True)`. -/
def sortRel1 (p q : Paper) : Prop :=
  q.relevance_score ≤ p.relevance_score

instance (p q : Paper) : Decidable (sortRel1 p q) := by
  unfold sortRel1; infer_instance

/-- The distinct lowercase whitespace-delimited query words,
`set(query.lower().split())`. -/
def queryWords (query : String) : List (List Char) :=
  (pySplitWS (pyLower query.data)).dedup

/-- The haystack `f"{paper.title} {paper.abstract}".lower()` of the keyword
scorer. -/
def kwText (p : Paper) : List Char :=
  pyLower (p.title ++ " " ++ p.abstract).data

/-- Score assigned by `AISearchEngine._rank_by_keywords`:
`word_count / len(query_words) if query_words else 0`. -/
def kwScore (query : String) (p : Paper) : ℚ :=
  if (queryWords query).isEmpty then 0
  else (((queryWords query).filter (fun w => hasSubstr w (kwText p))).length : ℚ) /
    ((queryWords query).length : ℚ)

/-- Tier-2 score as §4.4 of the specification words it: the count of
distinct lowercase whitespace-delimited query words occurring as substrings
anywhere in the lowercased title-plus-abstract text, divided by the number
of distinct query words, and `0` for an empty query word set.  Stated from
the specification, for comparison with the code's `kwScore`. -/
def tier2SpecScore (query : String) (p : Paper) : ℚ :=
  if (pySplitWS (pyLower query.data)).dedup.length = 0 then 0
  else
    (((pySplitWS (pyLower query.data)).dedup.filter
        (fun w => hasSubstr w (kwText p))).length : ℚ) /
      (((pySplitWS (pyLower query.data)).dedup.length : ℚ))

/-- Python truthiness of the optional result cap: `if top_k:` is false for
both `None` and `0`. -/
def truthyCap : Option ℕ → Option ℕ
  | none => none
  | some k => if k = 0 then none else some k

/-- `AISearchEngine._rank_by_keywords`: score every paper by keyword
overlap, sort descending by `(score, citations)` (stable), then truncate
when a truthy cap is given. -/
def _rank_by_keywords (papers : List Paper) (query : String) (top_k : Option ℕ) :
    List Paper :=
  let scored := papers.map (fun p => { p with relevance_score := kwScore query p })
  let sorted := List.insertionSort sortRel2 scored
  match truthyCap top_k with
  | some k => sorted.take k
  | none => sorted

/-- `AISearchEngine.get_embedding`: `None` without a configured client, else
the external call on the text truncated to 8000 characters.  The external
service is the uninterpreted parameter `emb`; a `none` result models a
failed call. -/
def get_embedding (client : Bool) (emb : String → Option (List ℚ)) (text : String) :
    Option (List ℚ) :=
  if client then emb (String.mk (text.data.take 8000)) else none

/-- The `f"{paper.title}\n\n{paper.abstract}"` text embedded for a paper. -/
def paperText (p : Paper) : String :=
  p.title ++ "\n\n" ++ p.abstract

/-- `AISearchEngine.compute_paper_embedding`. -/
def compute_paper_embedding (client : Bool) (emb : String → Option (List ℚ))
    (p : Paper) : Option (List ℚ) :=
  get_embedding client emb (paperText p)

/-- Python truthiness of an optional vector: `None` and `[]` are falsy. -/
def truthyVec : Option (List ℚ) → Option (List ℚ)
  | none => none
  | some v => if v.isEmpty then none else some v

/-- `AISearchEngine.rank_papers_by_query`.  Without a client, or when the
query embedding call fails (or returns a falsy vector), fall back to
keyword ranking.  Otherwise score each paper: empty abstract scores `0.0`;
a failed record embedding also scores `0.0` (still inside the semantic
tier); else the cosine similarity `cos` of the two vectors.  Sort
descending by score (stable) and truncate when a truthy cap is given. -/
def rank_papers_by_query (client : Bool) (emb : String → Option (List ℚ))
    (cos : List ℚ → List ℚ → ℚ) (papers : List Paper) (query : String)
    (top_k : Option ℕ) : List Paper :=
  if !client then _rank_by_keywords papers query top_k
  else
    match truthyVec (get_embedding client emb query) with
    | none => _rank_by_keywords papers query top_k
    | some qv =>
      let scored := papers.map (fun p =>
        if p.abstract = "" then { p with relevance_score := 0 }
        else
          match truthyVec (compute_paper_embedding client emb p) with
          | some pe => { p with embedding := some pe, relevance_score := cos qv pe }
          | none => { p with relevance_score := 0 })
      let sorted := List.insertionSort sortRel1 scored
      match truthyCap top_k with
      | some k => sorted.take k
      | none => sorted

namespace MultiDimensionalFilter

/-- Year stage of `MultiDimensionalFilter.filter`:
`p.year and start <= p.year <= end` (note `p.year` truthiness: a year of
`0` is falsy in Python and is excluded). -/
def yearStage (year_range : Option (Int × Int)) (l : List Paper) : List Paper :=
  match year_range with
  | some se =>
    l.filter (fun p =>
      match p.year with
      | some y => decide (y ≠ 0) && decide (se.1 ≤ y) && decide (y ≤ se.2)
      | none => false)
  | none => l

/-- Minimum-citations stage: applied only when `min_citations > 0`. -/
def minCitStage (min_citations : Int) (l : List Paper) : List Paper :=
  if 0 < min_citations then l.filter (fun p => decide (min_citations ≤ p.citations))
  else l

/-- Maximum-citations stage: applied when `max_citations is not None`. -/
def maxCitStage (max_citations : Option Int) (l : List Paper) : List Paper :=
  match max_citations with
  | some mc => l.filter (fun p => decide (p.citations ≤ mc))
  | none => l

/-- Fields-of-study stage (`if fields:`, so `None` and `[]` both skip):
keep a paper when some of its fields matches a wanted field exactly
(case-insensitively) or contains one as a substring. -/
def fieldsStage (fields : Option (List String)) (l : List Paper) : List Paper :=
  match fields with
  | some fs =>
    if fs.isEmpty then l
    else
      let fl := fs.map (fun f => pyLower f.data)
      l.filter (fun p =>
        p.fields.any (fun f =>
          fl.contains (pyLower f.data) || fl.any (fun w => hasSubstr w (pyLower f.data))))
  | none => l

/-- PDF-availability stage: `if p.pdf_url` (truthy, so `""` fails too). -/
def pdfStage (has_pdf : Bool) (l : List Paper) : List Paper :=
  if has_pdf then l.filter (fun p => decide (truthyS p.pdf_url ≠ none)) else l

/-- Author-substring stage (`if author_contains:`). -/
def authorStage (author_contains : Option String) (l : List Paper) : List Paper :=
  match truthyS author_contains with
  | some a =>
    let aq := pyLower a.data
    l.filter (fun p => p.authors.any (fun s => hasSubstr aq (pyLower s.data)))
  | none => l

/-- Venue-substring stage (`if venue_contains:`; a paper passes when
`p.venue` is truthy and contains the query). -/
def venueStage (venue_contains : Option String) (l : List Paper) : List Paper :=
  match truthyS venue_contains with
  | some v =>
    let vq := pyLower v.data
    l.filter (fun p =>
      match truthyS p.venue with
      | some pv => hasSubstr vq (pyLower pv.data)
      | none => false)
  | none => l

/-- Semantic stage: `if semantic_query and self.ai_engine.client:` rank the
survivors with `rank_papers_by_query` (no cap) and keep scores at or above
the threshold; otherwise the stage is skipped entirely. -/
def semanticStage (client : Bool) (emb : String → Option (List ℚ))
    (cos : List ℚ → List ℚ → ℚ) (semantic_query : Option String)
    (semantic_threshold : ℚ) (l : List Paper) : List Paper :=
  match semantic_query with
  | some q =>
    if decide (q ≠ "") && client then
      (rank_papers_by_query client emb cos l q none).filter
        (fun p => decide (semantic_threshold ≤ p.relevance_score))
    else l
  | none => l

/-- `MultiDimensionalFilter.filter`: the fixed predicate chain.  `client`,
`emb` and `cos` stand for `self.ai_engine` and its external capabilities. -/
def filter (client : Bool) (emb : String → Option (List ℚ))
    (cos : List ℚ → List ℚ → ℚ) (papers : List Paper)
    (year_range : Option (Int × Int)) (min_citations : Int)
    (max_citations : Option Int) (fields : Option (List String)) (has_pdf : Bool)
    (semantic_query : Option String) (semantic_threshold : ℚ)
    (author_contains : Option String) (venue_contains : Option String) :
    List Paper :=
  semanticStage client emb cos semantic_query semantic_threshold
    (venueStage venue_contains
      (authorStage author_contains
        (pdfStage has_pdf
          (fieldsStage fields
            (maxCitStage max_citations
              (minCitStage min_citations
                (yearStage year_range papers)))))))

end MultiDimensionalFilter

/-- Integer interval of Python `range(start, end + 1)` as a list. -/
def intRange (s e : ℤ) : List ℤ :=
  (List.range (e + 1 - s).toNat).map (fun k => s + (k : ℤ))

/-- Python `set.add`. -/
def setAdd (x : ℤ) (l : List ℤ) : List ℤ :=
  if x ∈ l then l else x :: l

/-- Python `set.update` with an iterable. -/
def setAddMany (xs : List ℤ) (l : List ℤ) : List ℤ :=
  xs.foldl (fun acc x => setAdd x acc) l

/-- Effect of one comma-separated token of `_parse_indices` on the
`selected` set: a range token `N-M` adds `range(N, M + 1)`, a plain token
adds its integer value, and a token that fails to parse is skipped. -/
def tokenAdd (selected : List ℤ) (part : List Char) : List ℤ :=
  if (pyStrip part).contains '-' then
    match splitOnChar '-' (pyStrip part) with
    | [a, b] =>
      match pyInt a, pyInt b with
      | some s, some e => setAddMany (intRange s e) selected
      | _, _ => selected
    | _ => selected
  else
    match pyInt (pyStrip part) with
    | some n => setAdd n selected
    | none => selected

/-- The `selected` set accumulated over all comma-separated tokens. -/
def selectedOf (indices_str : String) : List ℤ :=
  (splitOnChar ',' indices_str.data).foldl tokenAdd []

/-- Python `indices_str.lower()` as a `String`. -/
def pyLowerStr (s : String) : String :=
  String.mk (pyLower s.data)

/-- `paper_finder._parse_indices`: `"all"` returns the list unchanged;
otherwise the parsed positions are sorted, out-of-range ones dropped, and
the addressed papers returned (`papers[i - 1]` is one-based). -/
def _parse_indices (papers : List Paper) (indices_str : String) : List Paper :=
  if pyLowerStr indices_str = "all" then papers
  else
    ((List.insertionSort (· ≤ ·) (selectedOf indices_str)).filter
      (fun i => decide (1 ≤ i) && decide (i ≤ (papers.length : ℤ)))).map
      (fun i => papers.getD (i - 1).toNat default)

/-- One `authors` entry of a Semantic Scholar response item
(`a.get("name", "")`: `none` models a missing key). -/
structure SSAuthor where
  name : Option String
deriving DecidableEq

/-- One `fieldsOfStudy` entry (`f.get("category", "")`). -/
structure SSFieldEntry where
  category : Option String
deriving DecidableEq

/-- The `externalIds` sub-object. -/
structure SSExternalIds where
  DOI : Option String
  ArXiv : Option String
deriving DecidableEq

/-- The `openAccessPdf` sub-object. -/
structure SSOpenAccessPdf where
  url : Option String
deriving DecidableEq

/-- One item of `data["data"]` in a Semantic Scholar search response; a
`none` field models a missing or `null` JSON key. -/
structure SSItem where
  title : Option String
  abstract : Option String
  year : Option Int
  citationCount : Option Int
  authors : List SSAuthor
  fieldsOfStudy : Option (List SSFieldEntry)
  externalIds : Option SSExternalIds
  openAccessPdf : Option SSOpenAccessPdf
  url : Option String
  venue : Option String
deriving DecidableEq

namespace SemanticScholarAPI

/-- Mapping of one response item to a `Paper` in
`SemanticScholarAPI.search` (the body of the `for item in ...` loop after
the citation-threshold test).  Missing fields default; in particular a
missing title becomes `""`. -/
def paperOfItem (it : SSItem) : Paper :=
  let ext := it.externalIds.getD ⟨none, none⟩
  { title := it.title.getD ""
    authors := it.authors.map (fun a => a.name.getD "")
    abstract := it.abstract.getD ""
    year := it.year
    doi := ext.DOI
    arxiv_id := ext.ArXiv
    url := some (it.url.getD "")
    pdf_url := match it.openAccessPdf with
      | some pi => pi.url
      | none => none
    source := "semantic_scholar"
    citations := it.citationCount.getD 0
    venue := some (it.venue.getD "")
    fields := (it.fieldsOfStudy.getD []).map (fun f => f.category.getD "") }

/-- Response-processing loop of `SemanticScholarAPI.search`: items below
the citation threshold are skipped (`continue`), every other item is
mapped to a `Paper` and appended. -/
def searchItems (min_citations : Int) : List SSItem → List Paper
  | [] => []
  | it :: rest =>
    if it.citationCount.getD 0 < min_citations then searchItems min_citations rest
    else paperOfItem it :: searchItems min_citations rest

end SemanticScholarAPI

/-- One result of the arXiv client library as read by `ArxivAPI.search`;
`published` is modelled by the year the code extracts from it. -/
structure ArxivResult where
  title : String
  authors : List String
  summary : String
  published : Option Int
  doi : Option String
  entry_id : String
  pdf_url : Option String
  categories : List String
deriving DecidableEq

namespace ArxivAPI

/-- Last component of `result.entry_id.split("/")`, the extracted arXiv id. -/
def entryTail (s : String) : String :=
  String.mk ((splitOnChar '/' s.data).getLastD [])

/-- Result-processing loop of `ArxivAPI.search`: every result is mapped to
a `Paper`, with no title check of any kind. -/
def searchResults (rs : List ArxivResult) : List Paper :=
  rs.map (fun r =>
    { title := r.title
      authors := r.authors
      abstract := r.summary
      year := r.published
      doi := r.doi
      arxiv_id := some (entryTail r.entry_id)
      url := some r.entry_id
      pdf_url := r.pdf_url
      source := "arxiv"
      fields := r.categories
      venue := some "arXiv" })

end ArxivAPI

/-- Record an optional identifier in a seen-identifier list. -/
def optCons : Option String → List String → List String
  | some s, l => s :: l
  | none, l => l

/-- Seen-sets after a kept paper: its truthy DOI, truthy arXiv id and
normalized title are all recorded. -/
def addAll (st : DState) (p : Paper) : DState :=
  ⟨optCons (truthyS p.arxiv_id) (optCons (truthyS p.doi) st.ids),
    normTitle p.title :: st.titles⟩

/-- A paper passes all three `_deduplicate` checks against the state `st`:
its truthy DOI is unseen, its truthy arXiv id is unseen even after the DOI
is recorded, and its normalized title is unseen. -/
def freshFor (st : DState) (p : Paper) : Prop :=
  (∀ d, truthyS p.doi = some d → d ∉ st.ids) ∧
  (∀ a, truthyS p.arxiv_id = some a → a ∉ optCons (truthyS p.doi) st.ids) ∧
  normTitle p.title ∉ st.titles

/-- All identifying marks of a paper are already recorded in the state. -/
def SeenAll (st : DState) (p : Paper) : Prop :=
  (∀ d, truthyS p.doi = some d → d ∈ st.ids) ∧
  (∀ a, truthyS p.arxiv_id = some a → a ∈ st.ids) ∧
  normTitle p.title ∈ st.titles

/-- Every paper of the list passes the three checks against the state
accumulated from the previous papers of the list. -/
def SelfFresh : DState → List Paper → Prop
  | _, [] => True
  | st, p :: rest => freshFor st p ∧ SelfFresh (addAll st p) rest

example : pySplitWS " a bc  d ".data = [['a'], ['b', 'c'], ['d']] := by decide

example : pyInt "  42 ".data = some 42 := by decide

example : pyInt "-3".data = some (-3) := by decide

example : pyInt "4x".data = none := by decide

example :
    _deduplicate
      [{ title := "A", authors := [], abstract := "", doi := some "10.1/x", citations := 5 },
       { title := "A", authors := [], abstract := "", doi := some "10.1/x", citations := 50 },
       { title := "B", authors := [], abstract := "", citations := 1 }] =
      [{ title := "A", authors := [], abstract := "", doi := some "10.1/x", citations := 5 },
       { title := "B", authors := [], abstract := "", citations := 1 }] := by
  decide

lemma dstepT_ids (st : DState) (p : Paper) : (dstepT st p).1.ids = st.ids := by
  unfold dstepT
  by_cases h : normTitle p.title ∈ st.titles <;> simp [h]

lemma dstepT_titles_sub (st : DState) (p : Paper) :
    st.titles ⊆ (dstepT st p).1.titles := by
  unfold dstepT
  by_cases h : normTitle p.title ∈ st.titles
  · simp [h]
  · simp only [h, if_false]
    intro x hx
    exact List.mem_cons_of_mem _ hx

lemma dstepT_snd_iff (st : DState) (p : Paper) :
    (dstepT st p).2 = true ↔ normTitle p.title ∉ st.titles := by
  unfold dstepT
  by_cases h : normTitle p.title ∈ st.titles <;> simp [h]

lemma dstepT_fst_of_keep (st : DState) (p : Paper) (h : (dstepT st p).2 = true) :
    (dstepT st p).1 = ⟨st.ids, normTitle p.title :: st.titles⟩ := by
  rw [dstepT_snd_iff] at h
  unfold dstepT
  simp [h]

lemma dstepA_ids_sub (st : DState) (p : Paper) :
    st.ids ⊆ (dstepA st p).1.ids := by
  unfold dstepA
  cases ha : truthyS p.arxiv_id with
  | none =>
    rw [dstepT_ids]
    exact fun x hx => hx
  | some a =>
    by_cases h : a ∈ st.ids
    · simp [h]
    · simp only [h, if_false]
      rw [dstepT_ids]
      intro x hx
      exact List.mem_cons_of_mem _ hx

lemma dstepA_titles_sub (st : DState) (p : Paper) :
    st.titles ⊆ (dstepA st p).1.titles := by
  unfold dstepA
  cases ha : truthyS p.arxiv_id with
  | none => exact dstepT_titles_sub st p
  | some a =>
    by_cases h : a ∈ st.ids
    · simp [h]
    · simp only [h, if_false]
      exact dstepT_titles_sub ⟨a :: st.ids, st.titles⟩ p

lemma dstepA_snd_iff (st : DState) (p : Paper) :
    (dstepA st p).2 = true ↔
      ((∀ a, truthyS p.arxiv_id = some a → a ∉ st.ids) ∧
        normTitle p.title ∉ st.titles) := by
  unfold dstepA
  cases ha : truthyS p.arxiv_id with
  | none => simp [dstepT_snd_iff]
  | some a =>
    by_cases h : a ∈ st.ids
    · simp [h]
    · simp only [h, if_false, dstepT_snd_iff]
      constructor
      · intro ht
        refine ⟨?_, ht⟩
        intro a' ha'
        cases ha'
        exact h
      · intro ht
        exact ht.2

lemma dstepA_fst_of_keep (st : DState) (p : Paper) (h : (dstepA st p).2 = true) :
    (dstepA st p).1 =
      ⟨optCons (truthyS p.arxiv_id) st.ids, normTitle p.title :: st.titles⟩ := by
  have hiff := (dstepA_snd_iff st p).mp h
  unfold dstepA at h ⊢
  cases ha : truthyS p.arxiv_id with
  | none =>
    rw [ha] at h
    rw [dstepT_fst_of_keep st p h]
    rfl
  | some a =>
    have hna : a ∉ st.ids := hiff.1 a ha
    rw [ha] at h
    simp only [hna, if_false] at h ⊢
    rw [dstepT_fst_of_keep _ p h]
    rfl

lemma dstep_ids_sub (st : DState) (p : Paper) :
    st.ids ⊆ (dstep st p).1.ids := by
  unfold dstep
  cases hd : truthyS p.doi with
  | none => exact dstepA_ids_sub st p
  | some d =>
    by_cases h : d ∈ st.ids
    · simp [h]
    · simp only [h, if_false]
      intro x hx
      exact dstepA_ids_sub _ p (List.mem_cons_of_mem _ hx)

lemma dstep_titles_sub (st : DState) (p : Paper) :
    st.titles ⊆ (dstep st p).1.titles := by
  unfold dstep
  cases hd : truthyS p.doi with
  | none => exact dstepA_titles_sub st p
  | some d =>
    by_cases h : d ∈ st.ids
    · simp [h]
    · simp only [h, if_false]
      exact dstepA_titles_sub ⟨d :: st.ids, st.titles⟩ p

lemma dstep_snd_iff (st : DState) (p : Paper) :
    (dstep st p).2 = true ↔ freshFor st p := by
  unfold dstep freshFor
  cases hd : truthyS p.doi with
  | none =>
    rw [dstepA_snd_iff]
    simp [optCons]
  | some d =>
    by_cases h : d ∈ st.ids
    · simp only [h, if_true]
      constructor
      · intro hfalse
        exact absurd hfalse (by simp)
      · intro hc
        exact absurd h (hc.1 d rfl)
    · simp only [h, if_false, dstepA_snd_iff, optCons]
      constructor
      · rintro ⟨h1, h2⟩
        refine ⟨?_, h1, h2⟩
        intro d' hd'
        cases hd'
        exact h
      · rintro ⟨_, h1, h2⟩
        exact ⟨h1, h2⟩

lemma dstep_fst_of_keep (st : DState) (p : Paper) (h : (dstep st p).2 = true) :
    (dstep st p).1 = addAll st p := by
  have hf := (dstep_snd_iff st p).mp h
  unfold dstep at h ⊢
  unfold addAll
  cases hd : truthyS p.doi with
  | none =>
    rw [hd] at h
    rw [dstepA_fst_of_keep st p h]
    simp [optCons]
  | some d =>
    have hnd : d ∉ st.ids := hf.1 d hd
    rw [hd] at h
    simp only [hnd, if_false] at h ⊢
    rw [dstepA_fst_of_keep _ p h]
    simp [optCons]

lemma mem_optCons_of_mem (o : Option String) {l : List String} {x : String}
    (h : x ∈ l) : x ∈ optCons o l := by
  cases o with
  | none => exact h
  | some s => exact List.mem_cons_of_mem _ h

lemma optCons_mono (o : Option String) {l l' : List String} (h : l ⊆ l') :
    optCons o l ⊆ optCons o l' := by
  cases o with
  | none => exact h
  | some s =>
    intro x hx
    rcases List.mem_cons.mp hx with h1 | h2
    · rw [h1]
      exact List.mem_cons_self _ _
    · exact List.mem_cons_of_mem _ (h h2)

lemma dstepA_snd_false_of_arx (st : DState) (p : Paper) (a : String)
    (ha : truthyS p.arxiv_id = some a) (hmem : a ∈ st.ids) :
    (dstepA st p).2 = false := by
  unfold dstepA
  rw [ha]
  simp [hmem]

lemma dstepT_snd_false_of_title (st : DState) (p : Paper)
    (h : normTitle p.title ∈ st.titles) : (dstepT st p).2 = false := by
  unfold dstepT
  simp [h]

lemma dstepA_snd_false_of_title (st : DState) (p : Paper)
    (h : normTitle p.title ∈ st.titles) : (dstepA st p).2 = false := by
  unfold dstepA
  cases ha : truthyS p.arxiv_id with
  | none => exact dstepT_snd_false_of_title st p h
  | some a =>
    by_cases hm : a ∈ st.ids
    · simp [hm]
    · simp only [hm, if_false]
      exact dstepT_snd_false_of_title ⟨a :: st.ids, st.titles⟩ p h

lemma dstep_snd_false_of_doi (st : DState) (p : Paper) (d : String)
    (hd : truthyS p.doi = some d) (hmem : d ∈ st.ids) :
    (dstep st p).2 = false := by
  unfold dstep
  rw [hd]
  simp [hmem]

lemma dstep_snd_false_of_arx (st : DState) (p : Paper) (a : String)
    (ha : truthyS p.arxiv_id = some a) (hmem : a ∈ st.ids) :
    (dstep st p).2 = false := by
  unfold dstep
  cases hd : truthyS p.doi with
  | none => exact dstepA_snd_false_of_arx st p a ha hmem
  | some d =>
    by_cases hm : d ∈ st.ids
    · simp [hm]
    · simp only [hm, if_false]
      exact dstepA_snd_false_of_arx ⟨d :: st.ids, st.titles⟩ p a ha
        (List.mem_cons_of_mem _ hmem)

lemma dstep_snd_false_of_title (st : DState) (p : Paper)
    (h : normTitle p.title ∈ st.titles) : (dstep st p).2 = false := by
  unfold dstep
  cases hd : truthyS p.doi with
  | none => exact dstepA_snd_false_of_title st p h
  | some d =>
    by_cases hm : d ∈ st.ids
    · simp [hm]
    · simp only [hm, if_false]
      exact dstepA_snd_false_of_title ⟨d :: st.ids, st.titles⟩ p h

lemma dstep_doi_mem (st : DState) (p : Paper) (d : String)
    (hd : truthyS p.doi = some d) : d ∈ (dstep st p).1.ids := by
  unfold dstep
  rw [hd]
  by_cases hm : d ∈ st.ids
  · simp [hm]
  · simp only [hm, if_false]
    exact dstepA_ids_sub ⟨d :: st.ids, st.titles⟩ p (List.mem_cons_self _ _)

lemma dstep_keep_seenAll (st : DState) (p : Paper) (h : (dstep st p).2 = true) :
    SeenAll (dstep st p).1 p := by
  rw [dstep_fst_of_keep st p h]
  unfold addAll SeenAll
  refine ⟨?_, ?_, List.mem_cons_self _ _⟩
  · intro d hd
    apply mem_optCons_of_mem
    rw [hd]
    exact List.mem_cons_self _ _
  · intro a ha
    rw [ha]
    exact List.mem_cons_self _ _

lemma seenAll_mono (st st' : DState) (p : Paper) (h : SeenAll st p)
    (hi : st.ids ⊆ st'.ids) (ht : st.titles ⊆ st'.titles) : SeenAll st' p :=
  ⟨fun d hd => hi (h.1 d hd), fun a ha => hi (h.2.1 a ha), ht h.2.2⟩

lemma dstep_drop_of_dup (st : DState) (p q : Paper) (hs : SeenAll st p)
    (hd : dupRel p q) : (dstep st q).2 = false := by
  rcases hd with ⟨hne, heq⟩ | ⟨hne, heq⟩ | heq
  · cases hdo : truthyS p.doi with
    | none => exact absurd hdo hne
    | some d =>
      have hq : truthyS q.doi = some d := by rw [← heq, hdo]
      exact dstep_snd_false_of_doi st q d hq (hs.1 d hdo)
  · cases hao : truthyS p.arxiv_id with
    | none => exact absurd hao hne
    | some a =>
      have hq : truthyS q.arxiv_id = some a := by rw [← heq, hao]
      exact dstep_snd_false_of_arx st q a hq (hs.2.1 a hao)
  · exact dstep_snd_false_of_title st q (heq ▸ hs.2.2)

lemma dedupFlags_drop_of_doi :
    ∀ (l : List Paper) (st : DState) (j : ℕ) (d : String), d ∈ st.ids →
      truthyS ((l.getD j default).doi) = some d → j < l.length →
      (dedupFlags st l).getD j false = false := by
  intro l
  induction l with
  | nil =>
    intro st j d _ _ hj
    exact absurd hj (by simp)
  | cons p rest ih =>
    intro st j d hmem hdoi hj
    cases j with
    | zero =>
      rw [List.getD_cons_zero] at hdoi
      simp only [dedupFlags, List.getD_cons_zero]
      exact dstep_snd_false_of_doi st p d hdoi hmem
    | succ j =>
      rw [List.getD_cons_succ] at hdoi
      simp only [dedupFlags, List.getD_cons_succ]
      exact ih (dstep st p).1 j d (dstep_ids_sub st p hmem) hdoi
        (by simpa using Nat.lt_of_succ_lt_succ (by simpa using hj))

lemma dedupFlags_drop_of_seen :
    ∀ (l : List Paper) (st : DState) (p : Paper) (j : ℕ), SeenAll st p →
      dupRel p (l.getD j default) → j < l.length →
      (dedupFlags st l).getD j false = false := by
  intro l
  induction l with
  | nil =>
    intro st p j _ _ hj
    exact absurd hj (by simp)
  | cons q rest ih =>
    intro st p j hs hdup hj
    cases j with
    | zero =>
      rw [List.getD_cons_zero] at hdup
      simp only [dedupFlags, List.getD_cons_zero]
      exact dstep_drop_of_dup st p q hs hdup
    | succ j =>
      rw [List.getD_cons_succ] at hdup
      simp only [dedupFlags, List.getD_cons_succ]
      exact ih (dstep st q).1 p j
        (seenAll_mono st (dstep st q).1 p hs (dstep_ids_sub st q) (dstep_titles_sub st q))
        hdup (by simpa using Nat.lt_of_succ_lt_succ (by simpa using hj))

lemma c1_general :
    ∀ (l : List Paper) (st : DState) (i j : ℕ), i < j → j < l.length →
      (((dedupFlags st l).getD i false = true →
          dupRel (l.getD i default) (l.getD j default) →
          (dedupFlags st l).getD j false = false) ∧
        (truthyS (l.getD i default).doi ≠ none →
          truthyS (l.getD i default).doi = truthyS (l.getD j default).doi →
          (dedupFlags st l).getD j false = false)) := by
  intro l
  induction l with
  | nil =>
    intro st i j _ hj
    exact absurd hj (by simp)
  | cons p rest ih =>
    intro st i j hij hj
    cases i with
    | zero =>
      cases j with
      | zero => exact absurd hij (by omega)
      | succ j =>
        have hjr : j < rest.length := by simpa using Nat.lt_of_succ_lt_succ (by simpa using hj)
        constructor
        · intro hkeep hdup
          rw [List.getD_cons_zero, List.getD_cons_succ] at hdup
          simp only [dedupFlags, List.getD_cons_zero] at hkeep
          simp only [dedupFlags, List.getD_cons_succ]
          exact dedupFlags_drop_of_seen rest (dstep st p).1 p j
            (dstep_keep_seenAll st p hkeep) hdup hjr
        · intro hne heq
          rw [List.getD_cons_zero] at hne heq
          rw [List.getD_cons_succ] at heq
          simp only [dedupFlags, List.getD_cons_succ]
          cases hdo : truthyS p.doi with
          | none => exact absurd hdo hne
          | some d =>
            have hq : truthyS ((rest.getD j default).doi) = some d := by rw [← heq, hdo]
            exact dedupFlags_drop_of_doi rest (dstep st p).1 j d
              (dstep_doi_mem st p d hdo) hq hjr
    | succ i =>
      cases j with
      | zero => exact absurd hij (by omega)
      | succ j =>
        have hjr : j < rest.length := by simpa using Nat.lt_of_succ_lt_succ (by simpa using hj)
        simp only [dedupFlags, List.getD_cons_succ]
        exact ih (dstep st p).1 i j (by omega) hjr

lemma freshFor_anti (st st' : DState) (p : Paper) (hi : st.ids ⊆ st'.ids)
    (ht : st.titles ⊆ st'.titles) (h : freshFor st' p) : freshFor st p := by
  obtain ⟨h1, h2, h3⟩ := h
  exact ⟨fun d hd hmem => h1 d hd (hi hmem),
    fun a ha hmem => h2 a ha (optCons_mono _ hi hmem),
    fun hmem => h3 (ht hmem)⟩

lemma selfFresh_anti :
    ∀ (l : List Paper) (st st' : DState), st.ids ⊆ st'.ids →
      st.titles ⊆ st'.titles → SelfFresh st' l → SelfFresh st l := by
  intro l
  induction l with
  | nil => exact fun _ _ _ _ _ => trivial
  | cons p rest ih =>
    intro st st' hi ht h
    obtain ⟨h1, h2⟩ := h
    refine ⟨freshFor_anti st st' p hi ht h1, ih (addAll st p) (addAll st' p) ?_ ?_ h2⟩
    · exact optCons_mono _ (optCons_mono _ hi)
    · exact List.cons_subset_cons _ ht

lemma dedupGo_selfFresh :
    ∀ (l : List Paper) (st : DState), SelfFresh st (dedupGo st l) := by
  intro l
  induction l with
  | nil => exact fun st => trivial
  | cons p rest ih =>
    intro st
    rcases hk : dstep st p with ⟨st2, b⟩
    have hsub1 : st.ids ⊆ st2.ids := by
      have := dstep_ids_sub st p
      rw [hk] at this
      exact this
    have hsub2 : st.titles ⊆ st2.titles := by
      have := dstep_titles_sub st p
      rw [hk] at this
      exact this
    cases b with
    | false =>
      have hgo : dedupGo st (p :: rest) = dedupGo st2 rest := by
        simp [dedupGo, hk]
      rw [hgo]
      exact selfFresh_anti _ st st2 hsub1 hsub2 (ih st2)
    | true =>
      have hkeep : (dstep st p).2 = true := by rw [hk]
      have hst2 : st2 = addAll st p := by
        have := dstep_fst_of_keep st p hkeep
        rw [hk] at this
        exact this
      have hgo : dedupGo st (p :: rest) = p :: dedupGo st2 rest := by
        simp [dedupGo, hk]
      rw [hgo]
      exact ⟨(dstep_snd_iff st p).mp hkeep, hst2 ▸ ih st2⟩

lemma dedupGo_of_selfFresh :
    ∀ (l : List Paper) (st : DState), SelfFresh st l → dedupGo st l = l := by
  intro l
  induction l with
  | nil => exact fun _ _ => rfl
  | cons p rest ih =>
    intro st h
    obtain ⟨h1, h2⟩ := h
    have hkeep : (dstep st p).2 = true := (dstep_snd_iff st p).mpr h1
    have hfst : (dstep st p).1 = addAll st p := dstep_fst_of_keep st p hkeep
    have hpair : dstep st p = (addAll st p, true) := by
      rw [← hfst, ← hkeep]
    simp only [dedupGo, hpair]
    rw [ih (addAll st p) h2]

/-- C1 (amended): during `_deduplicate`, a record that duplicates (under
the three-tier identity rule) an earlier record that the deduplication
keeps is always discarded; and for two records with identical non-empty
DOI the later one is always discarded, whether or not the earlier one was
itself kept. -/
theorem dedup_drops_later_duplicate_of_kept (papers : List Paper) (i j : ℕ)
    (_hi : i < papers.length) (hj : j < papers.length) (hij : i < j) :
    ((dedupFlags dInit papers).getD i false = true →
      dupRel (papers.getD i default) (papers.getD j default) →
      (dedupFlags dInit papers).getD j false = false) ∧
    (truthyS (papers.getD i default).doi ≠ none →
      truthyS (papers.getD i default).doi = truthyS (papers.getD j default).doi →
      (dedupFlags dInit papers).getD j false = false) :=
  c1_general papers dInit i j hij hj

/-- Witness for the amended C1 theorem: two concrete records with the same
DOI `"D"`; the first is kept, the second discarded. -/
theorem dedup_drops_later_duplicate_witness :
    (dedupFlags dInit
      [{ title := "a", authors := [], abstract := "", doi := some "D" },
       { title := "b", authors := [], abstract := "", doi := some "D" }]).getD 1 false =
      false :=
  (dedup_drops_later_duplicate_of_kept
      [{ title := "a", authors := [], abstract := "", doi := some "D" },
       { title := "b", authors := [], abstract := "", doi := some "D" }]
      0 1 (by decide) (by decide) (by decide)).2 (by decide) (by decide)

/-- C1 counterexample: the claim as stated (every later duplicate is
discarded) fails.  Record 1 duplicates record 0 by DOI and is dropped at
the DOI check, so its arXiv id is never recorded; record 2 duplicates
record 1 by arXiv id, arrives later, and yet is kept. -/
theorem dedup_later_duplicate_survives_cex :
    dupRel
      { title := "t1", authors := [], abstract := "", doi := some "D",
        arxiv_id := some "A" }
      { title := "t2", authors := [], abstract := "", arxiv_id := some "A" } ∧
    dedupFlags dInit
      [{ title := "t0", authors := [], abstract := "", doi := some "D" },
       { title := "t1", authors := [], abstract := "", doi := some "D",
         arxiv_id := some "A" },
       { title := "t2", authors := [], abstract := "", arxiv_id := some "A" }] =
      [true, false, true] ∧
    _deduplicate
      [{ title := "t0", authors := [], abstract := "", doi := some "D" },
       { title := "t1", authors := [], abstract := "", doi := some "D",
         arxiv_id := some "A" },
       { title := "t2", authors := [], abstract := "", arxiv_id := some "A" }] =
      [{ title := "t0", authors := [], abstract := "", doi := some "D" },
       { title := "t2", authors := [], abstract := "", arxiv_id := some "A" }] := by
  refine ⟨?_, ?_, ?_⟩ <;> decide

/-- C2: `_deduplicate` is idempotent — applied to its own output it removes
nothing further and preserves the order. -/
theorem dedupe_idempotent (papers : List Paper) :
    _deduplicate (_deduplicate papers) = _deduplicate papers := by
  unfold _deduplicate
  exact dedupGo_of_selfFresh _ dInit (dedupGo_selfFresh papers dInit)

namespace MultiDimensionalFilter

lemma yearStage_sublist (yr : Option (Int × Int)) (l : List Paper) :
    List.Sublist (yearStage yr l) l := by
  unfold yearStage
  cases yr with
  | some se => exact List.filter_sublist l
  | none => exact List.Sublist.refl l

lemma minCitStage_sublist (mc : Int) (l : List Paper) : List.Sublist (minCitStage mc l) l := by
  unfold minCitStage
  by_cases h : 0 < mc
  · simp only [h, if_true]
    exact List.filter_sublist l
  · simp only [h, if_false]
    exact List.Sublist.refl l

lemma maxCitStage_sublist (mc : Option Int) (l : List Paper) :
    List.Sublist (maxCitStage mc l) l := by
  unfold maxCitStage
  cases mc with
  | some m => exact List.filter_sublist l
  | none => exact List.Sublist.refl l

lemma fieldsStage_sublist (fs : Option (List String)) (l : List Paper) :
    List.Sublist (fieldsStage fs l) l := by
  unfold fieldsStage
  cases fs with
  | some f =>
    by_cases h : f.isEmpty
    · simp only [h, if_true]
      exact List.Sublist.refl l
    · simp only [h, if_false]
      exact List.filter_sublist l
  | none => exact List.Sublist.refl l

lemma pdfStage_sublist (b : Bool) (l : List Paper) : List.Sublist (pdfStage b l) l := by
  unfold pdfStage
  cases b with
  | true => exact List.filter_sublist l
  | false => exact List.Sublist.refl l

lemma authorStage_sublist (a : Option String) (l : List Paper) :
    List.Sublist (authorStage a l) l := by
  unfold authorStage
  cases truthyS a with
  | some s => exact List.filter_sublist l
  | none => exact List.Sublist.refl l

lemma venueStage_sublist (v : Option String) (l : List Paper) :
    List.Sublist (venueStage v l) l := by
  unfold venueStage
  cases truthyS v with
  | some s => exact List.filter_sublist l
  | none => exact List.Sublist.refl l

end MultiDimensionalFilter

/-- C3: when the embedding capability is unavailable (no configured
client), the filter with a semantic query and threshold supplied returns
exactly what it returns with the semantic predicate absent — the semantic
stage is skipped entirely. -/
theorem filter_semantic_skipped_without_client
    (emb : String → Option (List ℚ)) (cos : List ℚ → List ℚ → ℚ)
    (papers : List Paper) (year_range : Option (Int × Int)) (min_citations : Int)
    (max_citations : Option Int) (fields : Option (List String)) (has_pdf : Bool)
    (q : String) (semantic_threshold : ℚ)
    (author_contains venue_contains : Option String) :
    MultiDimensionalFilter.filter false emb cos papers year_range min_citations
        max_citations fields has_pdf (some q) semantic_threshold author_contains
        venue_contains =
      MultiDimensionalFilter.filter false emb cos papers year_range min_citations
        max_citations fields has_pdf none semantic_threshold author_contains
        venue_contains := by
  unfold MultiDimensionalFilter.filter MultiDimensionalFilter.semanticStage
  simp

/-- C9: with the semantic predicate absent, the filter's output is a
subsequence of its input — survivors keep their relative order and nothing
is added or duplicated. -/
theorem filter_output_sublist (client : Bool) (emb : String → Option (List ℚ))
    (cos : List ℚ → List ℚ → ℚ) (papers : List Paper)
    (year_range : Option (Int × Int)) (min_citations : Int)
    (max_citations : Option Int) (fields : Option (List String)) (has_pdf : Bool)
    (semantic_threshold : ℚ) (author_contains venue_contains : Option String) :
    List.Sublist
      (MultiDimensionalFilter.filter client emb cos papers year_range min_citations
        max_citations fields has_pdf none semantic_threshold author_contains
        venue_contains) papers := by
  unfold MultiDimensionalFilter.filter
  have h1 := MultiDimensionalFilter.yearStage_sublist year_range papers
  have h2 := (MultiDimensionalFilter.minCitStage_sublist min_citations _).trans h1
  have h3 := (MultiDimensionalFilter.maxCitStage_sublist max_citations _).trans h2
  have h4 := (MultiDimensionalFilter.fieldsStage_sublist fields _).trans h3
  have h5 := (MultiDimensionalFilter.pdfStage_sublist has_pdf _).trans h4
  have h6 := (MultiDimensionalFilter.authorStage_sublist author_contains _).trans h5
  have h7 := (MultiDimensionalFilter.venueStage_sublist venue_contains _).trans h6
  exact h7

lemma kwScore_eq_spec (query : String) (p : Paper) :
    kwScore query p = tier2SpecScore query p := by
  unfold kwScore tier2SpecScore queryWords
  by_cases h : (pySplitWS (pyLower query.data)).dedup = []
  · simp [h]
  · have h1 : ((pySplitWS (pyLower query.data)).dedup).isEmpty = false := by
      simpa [List.isEmpty_iff] using h
    have h2 : ¬ ((pySplitWS (pyLower query.data)).dedup.length = 0) := by
      simpa [List.length_eq_zero] using h
    simp [h1, h2]

lemma kwScore_nonneg (query : String) (p : Paper) : 0 ≤ kwScore query p := by
  unfold kwScore
  by_cases h : (queryWords query).isEmpty
  · simp [h]
  · simp only [h, Bool.false_eq_true, if_false]
    positivity

lemma kwScore_le_one (query : String) (p : Paper) : kwScore query p ≤ 1 := by
  unfold kwScore
  by_cases h : (queryWords query).isEmpty
  · simp [h]
  · simp only [h, Bool.false_eq_true, if_false]
    apply div_le_one_of_le₀
    · exact_mod_cast List.length_filter_le _ _
    · positivity

lemma kwScore_of_empty (query : String) (p : Paper)
    (h : queryWords query = []) : kwScore query p = 0 := by
  unfold kwScore
  simp [h]

lemma mem_rank_kw_none (papers : List Paper) (query : String) (p : Paper)
    (h : p ∈ _rank_by_keywords papers query none) :
    ∃ q ∈ papers, p = { q with relevance_score := kwScore query q } := by
  unfold _rank_by_keywords at h
  simp only [truthyCap] at h
  have h2 : p ∈ papers.map (fun q => { q with relevance_score := kwScore query q }) :=
    (List.perm_insertionSort sortRel2 _).mem_iff.mp h
  rcases List.mem_map.mp h2 with ⟨q, hq, hpq⟩
  exact ⟨q, hq, hpq.symm⟩

/-- C4: every record output by the Tier-2 keyword ranker carries the
relevance score the specification describes — the count of distinct
lowercase query words occurring as substrings of its lowercased
title-plus-abstract, divided by the number of distinct query words; the
score lies in `[0, 1]`, and an empty query word set gives score `0`. -/
theorem tier2_keyword_score_spec (papers : List Paper) (query : String)
    (p : Paper) (hmem : p ∈ _rank_by_keywords papers query none) :
    p.relevance_score = tier2SpecScore query p ∧
    0 ≤ p.relevance_score ∧ p.relevance_score ≤ 1 ∧
    (queryWords query = [] → p.relevance_score = 0) := by
  rcases mem_rank_kw_none papers query p hmem with ⟨q, _, rfl⟩
  exact ⟨kwScore_eq_spec query q, kwScore_nonneg query q, kwScore_le_one query q,
    fun hq => kwScore_of_empty query q hq⟩

/-- Witness for C4 at the specification's own scenario: query
`"vaccine covid"` against a record whose abstract is
`"A study of COVID vaccine efficacy"`; both words match, the score is `1`. -/
theorem tier2_keyword_score_witness :
    ((_rank_by_keywords
        [{ title := "T", authors := [],
           abstract := "A study of COVID vaccine efficacy" }]
        "vaccine covid" none).getD 0 default) ∈
      _rank_by_keywords
        [{ title := "T", authors := [],
           abstract := "A study of COVID vaccine efficacy" }]
        "vaccine covid" none ∧
    0 ≤ ((_rank_by_keywords
        [{ title := "T", authors := [],
           abstract := "A study of COVID vaccine efficacy" }]
        "vaccine covid" none).getD 0 default).relevance_score ∧
    ((_rank_by_keywords
        [{ title := "T", authors := [],
           abstract := "A study of COVID vaccine efficacy" }]
        "vaccine covid" none).getD 0 default).relevance_score ≤ 1 ∧
    ((_rank_by_keywords
        [{ title := "T", authors := [],
           abstract := "A study of COVID vaccine efficacy" }]
        "vaccine covid" none).getD 0 default).relevance_score = 1 := by
  have hsing : _rank_by_keywords
      [{ title := "T", authors := [],
         abstract := "A study of COVID vaccine efficacy" }]
      "vaccine covid" none =
      [{ title := "T", authors := [],
         abstract := "A study of COVID vaccine efficacy",
         relevance_score := kwScore "vaccine covid"
           { title := "T", authors := [],
             abstract := "A study of COVID vaccine efficacy" } }] := rfl
  have hmem : ((_rank_by_keywords
      [{ title := "T", authors := [],
         abstract := "A study of COVID vaccine efficacy" }]
      "vaccine covid" none).getD 0 default) ∈
      _rank_by_keywords
        [{ title := "T", authors := [],
           abstract := "A study of COVID vaccine efficacy" }]
        "vaccine covid" none := by
    rw [hsing]
    exact List.mem_cons_self _ _
  have hthm := tier2_keyword_score_spec
      [{ title := "T", authors := [],
         abstract := "A study of COVID vaccine efficacy" }]
      "vaccine covid"
      ((_rank_by_keywords
        [{ title := "T", authors := [],
           abstract := "A study of COVID vaccine efficacy" }]
        "vaccine covid" none).getD 0 default) hmem
  refine ⟨hmem, hthm.2.1, hthm.2.2.1, ?_⟩
  rw [hsing]
  show kwScore "vaccine covid"
      { title := "T", authors := [],
        abstract := "A study of COVID vaccine efficacy" } = 1
  unfold kwScore
  have h1 : (queryWords "vaccine covid").isEmpty = false := by decide
  have h2 : ((queryWords "vaccine covid").filter
      (fun w => hasSubstr w (kwText
        { title := "T", authors := [],
          abstract := "A study of COVID vaccine efficacy" }))).length = 2 := by decide
  have h3 : (queryWords "vaccine covid").length = 2 := by decide
  rw [h1, h2, h3]
  norm_num

/-- C5 (amended): the ranker falls back to keyword ranking exactly when the
client is absent or the query embedding call fails (or returns a falsy
vector).  A failed record embedding does not trigger the fallback — such a
record is scored `0.0` inside the semantic tier. -/
theorem rank_keyword_fallback_iff_query_side (client : Bool)
    (emb : String → Option (List ℚ)) (cos : List ℚ → List ℚ → ℚ)
    (papers : List Paper) (query : String) (top_k : Option ℕ)
    (h : client = false ∨ truthyVec (get_embedding client emb query) = none) :
    rank_papers_by_query client emb cos papers query top_k =
      _rank_by_keywords papers query top_k := by
  unfold rank_papers_by_query
  rcases h with h | h
  · simp [h]
  · cases client with
    | false => simp
    | true => simp [h]

/-- Witness for the amended C5 theorem: with no client (`client = false`)
the ranker output is the keyword ranking, at a concrete input. -/
theorem rank_keyword_fallback_witness :
    ((false = false) ∨ truthyVec (get_embedding false (fun _ => none) "q") = none) ∧
    rank_papers_by_query false (fun _ => none) (fun _ _ => 0)
        [{ title := "t", authors := [], abstract := "" }] "q" none =
      _rank_by_keywords [{ title := "t", authors := [], abstract := "" }] "q" none :=
  ⟨Or.inl rfl,
    rank_keyword_fallback_iff_query_side false (fun _ => none) (fun _ _ => 0)
      [{ title := "t", authors := [], abstract := "" }] "q" none (Or.inl rfl)⟩

/-- C5 counterexample: the claim as stated also promises the keyword
fallback when a record embedding call fails; in the code such a record is
scored `0.0` inside the semantic tier instead.  With a client, a query
embedding that succeeds, and one record whose embedding call fails, the
semantic ranking differs from the keyword ranking. -/
theorem rank_record_embedding_failure_cex :
    compute_paper_embedding true
        (fun t => if t = "x" then some [1] else none)
        { title := "x", authors := [], abstract := "y" } = none ∧
    ({ title := "x", authors := [], abstract := "y" } : Paper).abstract ≠ "" ∧
    truthyVec (get_embedding true
        (fun t => if t = "x" then some [1] else none) "x") ≠ none ∧
    rank_papers_by_query true (fun t => if t = "x" then some [1] else none)
        (fun _ _ => 0) [{ title := "x", authors := [], abstract := "y" }] "x" none ≠
      _rank_by_keywords [{ title := "x", authors := [], abstract := "y" }] "x" none := by
  have hL : rank_papers_by_query true (fun t => if t = "x" then some [1] else none)
      (fun _ _ => 0) [{ title := "x", authors := [], abstract := "y" }] "x" none =
      [{ title := "x", authors := [], abstract := "y", relevance_score := 0 }] := rfl
  have hR : _rank_by_keywords [{ title := "x", authors := [], abstract := "y" }] "x"
      none =
      [{ title := "x", authors := [], abstract := "y",
         relevance_score := kwScore "x" { title := "x", authors := [], abstract := "y" } }] :=
    rfl
  have hscore : kwScore "x" { title := "x", authors := [], abstract := "y" } = 1 := by
    unfold kwScore
    have h1 : (queryWords "x").isEmpty = false := by decide
    have h2 : ((queryWords "x").filter
        (fun w => hasSubstr w (kwText
          { title := "x", authors := [], abstract := "y" }))).length = 1 := by decide
    have h3 : (queryWords "x").length = 1 := by decide
    rw [h1, h2, h3]
    norm_num
  refine ⟨rfl, by decide, by decide, ?_⟩
  intro h
  rw [hL, hR] at h
  have hhead := List.head_eq_of_cons_eq h
  have := congrArg Paper.relevance_score hhead
  simp only [hscore] at this
  exact absurd this (by norm_num)

lemma length_rank_kw_cap_zero (papers : List Paper) (query : String) :
    (_rank_by_keywords papers query (some 0)).length = papers.length := by
  unfold _rank_by_keywords truthyCap
  simp

lemma length_rank_kw_cap_pos (papers : List Paper) (query : String) (k : ℕ)
    (hk : k ≠ 0) :
    (_rank_by_keywords papers query (some k)).length = min k papers.length := by
  unfold _rank_by_keywords truthyCap
  simp only [hk, if_false, List.length_take, List.length_insertionSort,
    List.length_map]

/-- C6 (amended): for a positive result-count cap `K` the ranker's output
has length exactly `min K n`; a cap of `0` is falsy in Python
(`if top_k:`), so no truncation happens and all `n` records are returned. -/
theorem rank_cap_truncates (client : Bool) (emb : String → Option (List ℚ))
    (cos : List ℚ → List ℚ → ℚ) (papers : List Paper) (query : String) (k : ℕ) :
    (1 ≤ k →
      (rank_papers_by_query client emb cos papers query (some k)).length =
        min k papers.length) ∧
    (rank_papers_by_query client emb cos papers query (some 0)).length =
      papers.length := by
  constructor
  · intro hk
    have hk0 : k ≠ 0 := by omega
    unfold rank_papers_by_query
    cases client with
    | false => simpa using length_rank_kw_cap_pos papers query k hk0
    | true =>
      cases hv : truthyVec (get_embedding true emb query) with
      | none => simpa [hv] using length_rank_kw_cap_pos papers query k hk0
      | some qv =>
        simp only [Bool.not_true, Bool.false_eq_true, if_false, hv, truthyCap,
          hk0, List.length_take, List.length_insertionSort, List.length_map]
  · unfold rank_papers_by_query
    cases client with
    | false => simpa using length_rank_kw_cap_zero papers query
    | true =>
      cases hv : truthyVec (get_embedding true emb query) with
      | none => simpa [hv] using length_rank_kw_cap_zero papers query
      | some qv =>
        simp [hv, truthyCap, List.length_insertionSort, List.length_map]

/-- Witness for the amended C6 theorem at cap `1` over one record. -/
theorem rank_cap_truncates_witness :
    1 ≤ 1 ∧
    (rank_papers_by_query false (fun _ => none) (fun _ _ => 0)
        [{ title := "t2", authors := [], abstract := "" }] "q" (some 1)).length =
      min 1 [({ title := "t2", authors := [], abstract := "" } : Paper)].length :=
  ⟨Nat.le_refl 1,
    (rank_cap_truncates false (fun _ => none) (fun _ _ => 0)
        [{ title := "t2", authors := [], abstract := "" }] "q" 1).1 (Nat.le_refl 1)⟩

/-- C6 counterexample: with cap `K = 0` over one record the output has
length `1`, not `min 0 1 = 0` — a zero cap is falsy and does not truncate. -/
theorem rank_cap_zero_cex :
    (rank_papers_by_query false (fun _ => none) (fun _ _ => 0)
        [{ title := "t", authors := [], abstract := "" }] "q" (some 0)).length ≠
      min 0 [({ title := "t", authors := [], abstract := "" } : Paper)].length := by
  decide

/-- C7 (amended): the adapters do not discard title-less items.  The
Semantic Scholar adapter emits every item that passes the citation
threshold, with the title defaulted to `""` when missing; the arXiv adapter
emits every result with its title unchanged and unchecked. -/
theorem adapters_default_missing_title (min_citations : Int)
    (items : List SSItem) (rs : List ArxivResult) :
    (SemanticScholarAPI.searchItems min_citations items).map Paper.title =
      (items.filter
          (fun it => decide (min_citations ≤ it.citationCount.getD 0))).map
        (fun it => it.title.getD "") ∧
    (ArxivAPI.searchResults rs).map Paper.title = rs.map ArxivResult.title := by
  constructor
  · induction items with
    | nil => rfl
    | cons it rest ih =>
      by_cases h : it.citationCount.getD 0 < min_citations
      · have h2 : ¬ (min_citations ≤ it.citationCount.getD 0) := by omega
        simp [SemanticScholarAPI.searchItems, h, h2, ih]
      · have h2 : min_citations ≤ it.citationCount.getD 0 := by omega
        simp [SemanticScholarAPI.searchItems, h, h2, ih,
          SemanticScholarAPI.paperOfItem]
  · unfold ArxivAPI.searchResults
    rw [List.map_map]
    rfl

/-- C7 counterexample: an item with no title at all is not discarded — the
Semantic Scholar adapter emits it as a record whose title is `""`. -/
theorem adapter_emits_titleless_item_cex :
    (⟨none, none, none, none, [], none, none, none, none, none⟩ : SSItem).title =
      none ∧
    (SemanticScholarAPI.searchItems 0
        [⟨none, none, none, none, [], none, none, none, none, none⟩]).map
      Paper.title = [""] := by
  exact ⟨rfl, rfl⟩

lemma setAdd_nodup {x : ℤ} {l : List ℤ} (h : l.Nodup) : (setAdd x l).Nodup := by
  unfold setAdd
  by_cases hm : x ∈ l
  · simpa [hm] using h
  · simp only [hm, if_false]
    exact List.nodup_cons.mpr ⟨hm, h⟩

lemma setAddMany_nodup : ∀ (xs l : List ℤ), l.Nodup → (setAddMany xs l).Nodup := by
  intro xs
  induction xs with
  | nil => exact fun l h => h
  | cons x rest ih =>
    intro l h
    simp only [setAddMany, List.foldl_cons]
    exact ih (setAdd x l) (setAdd_nodup h)

lemma tokenAdd_nodup (sel : List ℤ) (part : List Char) (h : sel.Nodup) :
    (tokenAdd sel part).Nodup := by
  unfold tokenAdd
  split
  · split
    · split
      · exact setAddMany_nodup _ _ h
      · exact h
    · exact h
  · split
    · exact setAdd_nodup h
    · exact h

lemma foldl_tokenAdd_nodup :
    ∀ (parts : List (List Char)) (l : List ℤ), l.Nodup →
      (parts.foldl tokenAdd l).Nodup := by
  intro parts
  induction parts with
  | nil => exact fun l h => h
  | cons p rest ih =>
    intro l h
    simp only [List.foldl_cons]
    exact ih _ (tokenAdd_nodup l p h)

lemma selectedOf_nodup (s : String) : (selectedOf s).Nodup :=
  foldl_tokenAdd_nodup _ [] List.nodup_nil

lemma sorted_filter_eq_range_map (papers : List Paper) (s : String) :
    (List.insertionSort (· ≤ ·) (selectedOf s)).filter
        (fun i => decide (1 ≤ i) && decide (i ≤ (papers.length : ℤ))) =
      ((List.range papers.length).filter
          (fun k : ℕ => decide (((k : ℤ) + 1) ∈ selectedOf s))).map
        (fun k : ℕ => (k : ℤ) + 1) := by
  have hnd1 : ((List.insertionSort (· ≤ ·) (selectedOf s)).filter
      (fun i => decide (1 ≤ i) && decide (i ≤ (papers.length : ℤ)))).Nodup :=
    ((List.perm_insertionSort (· ≤ ·) (selectedOf s)).nodup_iff.mpr
      (selectedOf_nodup s)).filter _
  have hinj : Function.Injective (fun k : ℕ => (k : ℤ) + 1) := by
    intro a b hab
    simpa using hab
  have hnd2 : (((List.range papers.length).filter
      (fun k : ℕ => decide (((k : ℤ) + 1) ∈ selectedOf s))).map
        (fun k : ℕ => (k : ℤ) + 1)).Nodup :=
    ((List.nodup_range papers.length).filter _).map hinj
  apply List.eq_of_perm_of_sorted (r := (· ≤ · : ℤ → ℤ → Prop))
  · rw [List.perm_ext_iff_of_nodup hnd1 hnd2]
    intro a
    have hmm : ∀ b : ℤ, b ∈ List.insertionSort (· ≤ ·) (selectedOf s) ↔
        b ∈ selectedOf s :=
      fun b => (List.perm_insertionSort (· ≤ ·) (selectedOf s)).mem_iff
    simp only [List.mem_filter, hmm, List.mem_map, List.mem_range,
      Bool.and_eq_true, decide_eq_true_eq]
    constructor
    · rintro ⟨hsel, h1, h2⟩
      refine ⟨(a - 1).toNat, ⟨by omega, ?_⟩, by omega⟩
      have he : (((a - 1).toNat : ℤ)) + 1 = a := by omega
      rw [he]
      exact hsel
    · rintro ⟨k, ⟨hk, hmem⟩, rfl⟩
      exact ⟨hmem, by omega, by omega⟩
  · exact List.Pairwise.sublist (List.filter_sublist _)
      (List.sorted_insertionSort (· ≤ ·) (selectedOf s))
  · have h1 : List.Pairwise (· < ·) ((List.range papers.length).filter
        (fun k : ℕ => decide (((k : ℤ) + 1) ∈ selectedOf s))) :=
      List.Pairwise.sublist (List.filter_sublist _)
        (List.pairwise_lt_range papers.length)
    exact List.Pairwise.map _ (fun a b hab => by omega) h1

lemma parse_indices_eq (papers : List Paper) (s : String)
    (h : pyLowerStr s ≠ "all") :
    _parse_indices papers s =
      ((List.range papers.length).filter
          (fun k : ℕ => decide (((k : ℤ) + 1) ∈ selectedOf s))).map
        (fun k : ℕ => papers.getD k default) := by
  unfold _parse_indices
  rw [if_neg h, sorted_filter_eq_range_map papers s, List.map_map]
  have hfun : ((fun i : ℤ => papers.getD (i - 1).toNat default) ∘
      (fun k : ℕ => (k : ℤ) + 1)) = fun k : ℕ => papers.getD k default := by
    funext k
    have : (((k : ℤ) + 1) - 1).toNat = k := by omega
    simp only [Function.comp_apply, this]
  rw [hfun]

lemma getD_range_map (l : List Paper) :
    (List.range l.length).map (fun k => l.getD k default) = l := by
  apply List.ext_getElem
  · simp
  · intro n h1 h2
    simp only [List.getElem_map, List.getElem_range]
    exact List.getD_eq_getElem l default h2

lemma mem_setAdd {i x : ℤ} {l : List ℤ} : i ∈ setAdd x l ↔ i = x ∨ i ∈ l := by
  unfold setAdd
  by_cases hm : x ∈ l
  · simp only [hm, if_true]
    constructor
    · exact Or.inr
    · rintro (rfl | h)
      · exact hm
      · exact h
  · simp [hm, List.mem_cons]

lemma mem_setAddMany :
    ∀ (xs l : List ℤ) (i : ℤ), i ∈ setAddMany xs l ↔ i ∈ xs ∨ i ∈ l := by
  intro xs
  induction xs with
  | nil => simp [setAddMany]
  | cons x rest ih =>
    intro l i
    simp only [setAddMany, List.foldl_cons] at ih ⊢
    rw [ih (setAdd x l) i, mem_setAdd, List.mem_cons]
    tauto

lemma mem_tokenAdd (sel : List ℤ) (part : List Char) (i : ℤ) :
    i ∈ tokenAdd sel part ↔ i ∈ tokenAdd [] part ∨ i ∈ sel := by
  unfold tokenAdd
  cases hc : (pyStrip part).contains '-' with
  | true =>
    simp only [if_true]
    rcases hsp : splitOnChar '-' (pyStrip part) with _ | ⟨a, rest1⟩
    · simp
    rcases rest1 with _ | ⟨b, rest2⟩
    · simp
    rcases rest2 with _ | ⟨c, rest3⟩
    · rcases hpa : pyInt a with _ | sv
      · simp [hsp, hpa]
      rcases hpb : pyInt b with _ | ev
      · simp [hsp, hpa, hpb]
      simp [hsp, hpa, hpb, mem_setAddMany]
    · simp
  | false =>
    simp only [Bool.false_eq_true, if_false]
    rcases hpn : pyInt (pyStrip part) with _ | n
    · simp
    · simp [mem_setAdd]

lemma mem_foldl_tokenAdd :
    ∀ (parts : List (List Char)) (l : List ℤ) (i : ℤ),
      i ∈ parts.foldl tokenAdd l ↔
        (∃ part ∈ parts, i ∈ tokenAdd [] part) ∨ i ∈ l := by
  intro parts
  induction parts with
  | nil => simp
  | cons p rest ih =>
    intro l i
    simp only [List.foldl_cons]
    rw [ih (tokenAdd l p) i, mem_tokenAdd l p i]
    simp only [List.exists_mem_cons_iff]
    constructor
    · rintro (⟨w, hw, hiw⟩ | h | h)
      · exact Or.inl (Or.inr ⟨w, hw, hiw⟩)
      · exact Or.inl (Or.inl h)
      · exact Or.inr h
    · rintro ((h | ⟨w, hw, hiw⟩) | h)
      · exact Or.inr (Or.inl h)
      · exact Or.inl ⟨w, hw, hiw⟩
      · exact Or.inr (Or.inr h)

lemma mem_selectedOf (s : String) (i : ℤ) :
    i ∈ selectedOf s ↔
      ∃ part ∈ splitOnChar ',' s.data, i ∈ tokenAdd [] part := by
  unfold selectedOf
  rw [mem_foldl_tokenAdd]
  simp

/-- C8: for a selection string other than `"all"`, `_parse_indices` returns
exactly the papers at the in-range one-based positions named by the
comma-separated tokens (singles and inclusive ranges, unparseable tokens
skipped individually, out-of-range positions silently dropped), traversed
in position order; a position is named exactly when some single token
independently contributes it. -/
theorem parse_indices_positions (papers : List Paper) (s : String)
    (h : pyLowerStr s ≠ "all") :
    _parse_indices papers s =
      ((List.range papers.length).filter
          (fun k : ℕ => decide (((k : ℤ) + 1) ∈ selectedOf s))).map
        (fun k : ℕ => papers.getD k default) ∧
    (∀ i : ℤ, i ∈ selectedOf s ↔
      ∃ part ∈ splitOnChar ',' s.data, i ∈ tokenAdd [] part) :=
  ⟨parse_indices_eq papers s h, mem_selectedOf s⟩

/-- Witness for C8 at the specification's scenarios: `"1,3-4"` over a
5-item list yields the items at positions 1, 3 and 4, and `"9"` yields the
empty selection. -/
theorem parse_indices_positions_witness :
    pyLowerStr "1,3-4" ≠ "all" ∧
    _parse_indices
        [{ title := "p1", authors := [], abstract := "" },
         { title := "p2", authors := [], abstract := "" },
         { title := "p3", authors := [], abstract := "" },
         { title := "p4", authors := [], abstract := "" },
         { title := "p5", authors := [], abstract := "" }] "1,3-4" =
      [{ title := "p1", authors := [], abstract := "" },
       { title := "p3", authors := [], abstract := "" },
       { title := "p4", authors := [], abstract := "" }] ∧
    _parse_indices
        [{ title := "p1", authors := [], abstract := "" },
         { title := "p2", authors := [], abstract := "" },
         { title := "p3", authors := [], abstract := "" },
         { title := "p4", authors := [], abstract := "" },
         { title := "p5", authors := [], abstract := "" }] "9" = [] :=
  ⟨by decide,
    ((parse_indices_positions
        [{ title := "p1", authors := [], abstract := "" },
         { title := "p2", authors := [], abstract := "" },
         { title := "p3", authors := [], abstract := "" },
         { title := "p4", authors := [], abstract := "" },
         { title := "p5", authors := [], abstract := "" }] "1,3-4"
        (by decide)).1).trans (by decide),
    ((parse_indices_positions
        [{ title := "p1", authors := [], abstract := "" },
         { title := "p2", authors := [], abstract := "" },
         { title := "p3", authors := [], abstract := "" },
         { title := "p4", authors := [], abstract := "" },
         { title := "p5", authors := [], abstract := "" }] "9"
        (by decide)).1).trans (by decide)⟩

/-- C10: `_parse_indices` returns a subsequence of the paper list — each
selected paper is taken from ascending positions, each position at most
once, regardless of token order, repetitions or overlaps — and the string
`"all"` returns the full list unchanged. -/
theorem parse_indices_sublist_and_all (papers : List Paper) (s : String) :
    List.Sublist (_parse_indices papers s) papers ∧
    (pyLowerStr s = "all" → _parse_indices papers s = papers) := by
  by_cases h : pyLowerStr s = "all"
  · have he : _parse_indices papers s = papers := by
      unfold _parse_indices
      rw [if_pos h]
    exact ⟨by rw [he], fun _ => he⟩
  · refine ⟨?_, fun hc => absurd hc h⟩
    rw [parse_indices_eq papers s h]
    have hs : List.Sublist
        (((List.range papers.length).filter
            (fun k : ℕ => decide (((k : ℤ) + 1) ∈ selectedOf s))).map
          (fun k : ℕ => papers.getD k default))
        ((List.range papers.length).map (fun k : ℕ => papers.getD k default)) :=
      List.Sublist.map _ (List.filter_sublist _)
    rw [getD_range_map papers] at hs
    exact hs

/-- Witness for C10 at the `"all"` selection over a one-item list. -/
theorem parse_indices_all_witness :
    List.Sublist
        (_parse_indices [{ title := "w", authors := [], abstract := "" }] "all")
        [{ title := "w", authors := [], abstract := "" }] ∧
    _parse_indices [{ title := "w", authors := [], abstract := "" }] "all" =
      [{ title := "w", authors := [], abstract := "" }] :=
  ⟨(parse_indices_sublist_and_all
      [{ title := "w", authors := [], abstract := "" }] "all").1,
    (parse_indices_sublist_and_all
      [{ title := "w", authors := [], abstract := "" }] "all").2 (by decide)⟩
